import Mathlib

/-!
Verification development for the PulseNet host polling / alerting / DNS
benchmarking core (src/src/renderer/App.jsx), shallowly embedded in Lean.

JavaScript numbers that carry latencies are modelled as rationals (ℚ);
`null` values are modelled with `Option`; JavaScript `Math.round` is
modelled by `jsRound` (floor of x + 1/2, which is the ECMAScript
round-half-up behaviour); strings are Lean `String`s and the JavaScript
string primitives used by the code (trim, split, startsWith) are embedded
as executable character-list functions below.
-/

namespace PulseNet

/-- ECMAScript `Math.round`: round half toward positive infinity. -/
def jsRound (q : ℚ) : ℤ := ⌊q + 1/2⌋

/-- Whitespace characters recognised by JavaScript `String.prototype.trim`
(the ones that occur in practice here: space, tab, LF, CR, VT, FF). -/
def jsWhitespace (c : Char) : Bool :=
  c == ' ' || c == '\t' || c == '\n' || c == '\r' ||
    c == Char.ofNat 11 || c == Char.ofNat 12

/-- JavaScript `String.prototype.trim`. -/
def jsTrim (s : String) : String :=
  String.mk (((s.toList.dropWhile jsWhitespace).reverse.dropWhile jsWhitespace).reverse)

/-- `list.split(c)` from JavaScript, on the character list of a string. -/
def splitOnChar (c : Char) : List Char → List (List Char)
  | [] => [[]]
  | x :: xs =>
    match splitOnChar c xs with
    | [] => [[x]]
    | y :: ys => if x = c then [] :: y :: ys else (x :: y) :: ys

/-- `s.split(c)[0]`: the part before the first occurrence of `c`. -/
def headOfSplit (c : Char) (cs : List Char) : List Char :=
  cs.takeWhile (fun x => x ≠ c)

/-! ## usePing (App.jsx lines 131-245)

The polling hook keeps a `pingData` record (status text, error flag,
latency, error kind) and a bounded `history` of latency samples
(`Option ℚ`, `none` for a tick with no numeric round-trip time). -/

/-- `maxHistoryPoints` from `usePing`:
`Math.max(18, Math.min(100, Math.floor(60000 / Math.max(250, Number(intervalMs) || 1000))))`.
A zero interval models the JavaScript falsy case (`Number(x) || 1000`). -/
def maxHistoryPoints (intervalMs : ℕ) : ℕ :=
  let safeInterval := max 250 (if intervalMs = 0 then 1000 else intervalMs)
  max 18 (min 100 (60000 / safeInterval))

/-- `prev.slice(-n)` for a positive `n`: the last `n` elements of a list.
Used by the effect that trims history when `maxHistoryPoints` changes. -/
def sliceLast (n : ℕ) (l : List (Option ℚ)) : List (Option ℚ) :=
  l.drop (l.length - n)

/-- Outcome of one poll tick, as classified by the `ping` callback:
successful probe with a live host, permission error, other probe error,
no response, or an IPC-transport failure. -/
inductive TickOutcome
  | success (time : ℚ)
  | permissionError
  | otherError
  | noResponse
  | ipcError
deriving DecidableEq, Repr

/-- The `errorKind` field of `pingData`. -/
inductive ErrorKind
  | permission
  | error
  | noResponse
  | ipc
  | paused
deriving DecidableEq, Repr

/-- The localized status strings consulted by `usePing`. -/
structure StatusTexts where
  paused : String
  needAdmin : String
  error : String
  noResponse : String
  ipcError : String
deriving DecidableEq, Repr

/-- The `pingData` state of `usePing`. -/
structure PingData where
  status : String
  hasError : Bool
  timeMs : Option ℚ
  errorKind : Option ErrorKind
deriving DecidableEq, Repr

/-- Full per-host transient state of `usePing`: latest `pingData` plus the
rolling `history`. -/
structure PingState where
  pingData : PingData
  history : List (Option ℚ)
deriving DecidableEq, Repr

/-- The history sample contributed by a tick: the round-trip time on
success, `null` otherwise. -/
def sampleOf : TickOutcome → Option ℚ
  | .success t => some t
  | _ => none

/-- The `pingData` produced for a tick outcome (the `setPingData` calls in
the `ping` callback; a success renders `Math.round(time) + "ms"`). -/
def dataOf (texts : StatusTexts) : TickOutcome → PingData
  | .success t => ⟨toString (jsRound t) ++ "ms", false, some t, none⟩
  | .permissionError => ⟨texts.needAdmin, true, none, some .permission⟩
  | .otherError => ⟨texts.error, true, none, some .error⟩
  | .noResponse => ⟨texts.noResponse, true, none, some .noResponse⟩
  | .ipcError => ⟨texts.ipcError, true, none, some .ipc⟩

/-- `pushHistory` from `usePing`: append the new sample, then drop the
oldest entries if the buffer exceeds `maxHistoryPoints` (the `splice`). -/
def pushHistory (cap : ℕ) (prev : List (Option ℚ)) (value : Option ℚ) : List (Option ℚ) :=
  let next := prev ++ [value]
  if cap < next.length then next.drop (next.length - cap) else next

/-- One scheduled tick of `usePing`. With `enabled` the probe outcome is
consumed: `pushHistory` records its sample (when `trackHistory`) and
`pingData` is replaced. With `enabled = false` no probe is issued: when
`showPausedState` only the displayed fields are replaced by the paused
placeholder, and the history is untouched. -/
def pingTick (texts : StatusTexts) (cap : ℕ) (enabled showPausedState trackHistory : Bool)
    (o : TickOutcome) (st : PingState) : PingState :=
  if enabled then
    { pingData := dataOf texts o,
      history := if trackHistory then pushHistory cap st.history (sampleOf o) else st.history }
  else if showPausedState then
    { st with pingData :=
        { st.pingData with
          status := texts.paused, hasError := false, timeMs := none, errorKind := some .paused } }
  else st

/-- A run of consecutive ticks with polling enabled and history tracked. -/
def runTicks (texts : StatusTexts) (cap : ℕ) (os : List TickOutcome) (st : PingState) : PingState :=
  os.foldl (fun s o => pingTick texts cap true true true o s) st

/-! Basic lemmas about history truncation. -/

theorem sliceLast_length (n : ℕ) (l : List (Option ℚ)) :
    (sliceLast n l).length = min l.length n := by
  simp [sliceLast]
  omega

theorem sliceLast_suffix (n : ℕ) (l : List (Option ℚ)) :
    ∃ t, t ++ sliceLast n l = l := by
  exact ⟨l.take (l.length - n), List.take_append_drop _ _⟩

theorem pushHistory_eq_sliceLast (cap : ℕ) (h : List (Option ℚ)) (v : Option ℚ) :
    pushHistory cap h v = sliceLast cap (h ++ [v]) := by
  simp only [pushHistory, sliceLast]
  by_cases hc : cap < (h ++ [v]).length
  · simp only [List.length_append, List.length_cons, List.length_nil] at hc ⊢
    simp [hc]
  · simp only [List.length_append, List.length_cons, List.length_nil] at hc ⊢
    have h0 : h.length + 1 - cap = 0 := by omega
    simp [hc, h0]

theorem sliceLast_sliceLast_append (cap : ℕ) (x l : List (Option ℚ)) :
    sliceLast cap (sliceLast cap x ++ l) = sliceLast cap (x ++ l) := by
  unfold sliceLast
  rcases Nat.le_total cap x.length with hle | hle
  · rw [List.drop_append_eq_append_drop, List.drop_append_eq_append_drop]
    have h1 : (x.drop (x.length - cap)).length = cap := by simp; omega
    congr 1
    · rw [List.drop_drop]
      congr 1
      simp [h1]
      omega
    · congr 1
      simp [h1]
      omega
  · have h0 : x.length - cap = 0 := by omega
    simp [h0]

theorem foldl_push_eq (cap : ℕ) (os : List TickOutcome) :
    ∀ h : List (Option ℚ),
      os.foldl (fun h o => pushHistory cap h (sampleOf o)) (sliceLast cap h)
        = sliceLast cap (h ++ os.map sampleOf) := by
  induction os with
  | nil => intro h; simp
  | cons o os ih =>
    intro h
    simp only [List.foldl_cons, List.map_cons]
    rw [pushHistory_eq_sliceLast, sliceLast_sliceLast_append, ih (h ++ [sampleOf o])]
    congr 1
    simp

theorem runTicks_history (texts : StatusTexts) (cap : ℕ) (os : List TickOutcome) :
    ∀ st : PingState,
      (runTicks texts cap os st).history
        = os.foldl (fun h o => pushHistory cap h (sampleOf o)) st.history := by
  induction os with
  | nil => intro st; rfl
  | cons o os ih =>
    intro st
    simp only [runTicks, List.foldl_cons] at *
    rw [ih]
    rfl

/-- The cap formula as the specification writes it:
`clamp(floor(60000 / I), 18, 100)`. -/
def specClamp (x lo hi : ℕ) : ℕ := max lo (min hi x)

/-- C1: for every polling interval I with 250 ≤ I, the per-host history cap
computed by the poller equals `clamp(floor(60000 / I), 18, 100)`, and the
truncation run when the interval changes keeps exactly the most recent
`min(length, cap)` samples of the existing history (the result is a suffix
of the old history of that length). -/
theorem historyCap_and_trim (i : ℕ) (hi : 250 ≤ i) :
    maxHistoryPoints i = specClamp (60000 / i) 18 100
      ∧ ∀ (h : List (Option ℚ)) (cap : ℕ),
          (sliceLast cap h).length = min h.length cap ∧ ∃ t, t ++ sliceLast cap h = h := by
  refine ⟨?_, fun h cap => ⟨sliceLast_length cap h, sliceLast_suffix cap h⟩⟩
  have hne : i ≠ 0 := by omega
  have hmax : max 250 i = i := Nat.max_eq_right hi
  simp [maxHistoryPoints, specClamp, hne, hmax]

/-- Witness for C1 at the interval 2000 ms used by the spec's worked
example: the cap is 30 and a 3-sample history is kept whole. -/
theorem historyCap_and_trim_witness :
    (250 ≤ 2000 ∧ maxHistoryPoints 2000 = specClamp (60000 / 2000) 18 100)
      ∧ maxHistoryPoints 2000 = 30
      ∧ sliceLast 30 [some 10, some 20, none] = [some 10, some 20, none] := by
  refine ⟨⟨by norm_num, (historyCap_and_trim 2000 (by norm_num)).1⟩, by decide, by decide⟩

/-- C2: with polling continuously enabled and history tracking on, a run of
N ticks from an empty history yields exactly the most recent
`min(N, cap)` of the per-tick samples — the numeric round-trip time for a
successful tick and `null` for every failing one — so each tick contributes
exactly one entry, the length is `min(N, cap)`, and it never exceeds the
cap. -/
theorem history_after_ticks (texts : StatusTexts) (cap : ℕ) (os : List TickOutcome)
    (d0 : PingData) :
    (runTicks texts cap os ⟨d0, []⟩).history = sliceLast cap (os.map sampleOf)
      ∧ (runTicks texts cap os ⟨d0, []⟩).history.length = min os.length cap
      ∧ (runTicks texts cap os ⟨d0, []⟩).history.length ≤ cap := by
  have hh : (runTicks texts cap os ⟨d0, []⟩).history = sliceLast cap (os.map sampleOf) := by
    rw [runTicks_history]
    have := foldl_push_eq cap os []
    simpa [sliceLast] using this
  refine ⟨hh, ?_, ?_⟩
  · rw [hh, sliceLast_length]
    simp
  · rw [hh, sliceLast_length]
    omega

/-- C10: while a host is paused (`enabled = false`, paused placeholder
shown), a scheduled tick issues no probe — the state transition is
independent of any probe outcome — the history is left untouched, and the
displayed fields become the paused placeholder: the paused status text, no
error flag, `null` time, and error kind `paused`. -/
theorem paused_host_frame (texts : StatusTexts) (cap : ℕ) (track : Bool)
    (o o' : TickOutcome) (st : PingState) :
    pingTick texts cap false true track o st = pingTick texts cap false true track o' st
      ∧ (pingTick texts cap false true track o st).history = st.history
      ∧ (pingTick texts cap false true track o st).pingData
        = ⟨texts.paused, false, none, some .paused⟩ := by
  refine ⟨rfl, rfl, rfl⟩

/-! ## Alert evaluator (App.jsx lines 340-365)

After each poll result, a per-host effect decides whether to emit an alert
log entry. The per-host cooldown timestamp is `lastAlertRef` (one `useRef`
per host card, so the state below is the whole per-host alert state); the
cooldown is 60 000 ms; the failure rule is checked before the latency rule
and returns early, so at most one alert fires per tick. -/

/-- Which alert rule fired. -/
inductive AlertKind
  | failure
  | latency
deriving DecidableEq, Repr

/-- One evaluation of the alert effect for a host, given the edit-mode
flag, the current time, the host's last-alert timestamp, the latency
warning threshold (`pingAlertThresholdMs`, falsy 0 disables the latency
rule) and the host's current `pingData`. Returns the new last-alert
timestamp and the alert emitted, if any. -/
def evalAlert (isEditMode : Bool) (now lastAlert : ℤ) (thresholdMs : ℚ)
    (d : PingData) : ℤ × Option AlertKind :=
  if isEditMode then (lastAlert, none)
  else if now - lastAlert < 60000 then (lastAlert, none)
  else if d.hasError = true ∧ d.errorKind ≠ none ∧ d.errorKind ≠ some .permission
      ∧ d.errorKind ≠ some .paused then
    (now, some .failure)
  else
    match d.timeMs with
    | some t => if thresholdMs ≠ 0 ∧ thresholdMs < t then (now, some .latency) else (lastAlert, none)
    | none => (lastAlert, none)

/-- A result that qualifies for the failure alert (Rule A). -/
def failureQualifies (d : PingData) : Prop :=
  d.hasError = true ∧ d.errorKind ≠ none ∧ d.errorKind ≠ some .permission
    ∧ d.errorKind ≠ some .paused

/-- A result that qualifies for the high-latency alert (Rule B). -/
def latencyQualifies (thresholdMs : ℚ) (d : PingData) : Prop :=
  ∃ t, d.timeMs = some t ∧ thresholdMs ≠ 0 ∧ thresholdMs < t

/-- A result that qualifies for some alert rule. -/
def alertQualifies (thresholdMs : ℚ) (d : PingData) : Prop :=
  failureQualifies d ∨ latencyQualifies thresholdMs d

theorem evalAlert_fired_timestamp (now lastAlert : ℤ) (th : ℚ) (d : PingData)
    (hfired : (evalAlert false now lastAlert th d).2.isSome = true) :
    (evalAlert false now lastAlert th d).1 = now := by
  unfold evalAlert at hfired ⊢
  simp only [Bool.false_eq_true, if_false] at hfired ⊢
  by_cases h2 : now - lastAlert < 60000
  · simp [h2] at hfired
  simp only [if_neg h2] at hfired ⊢
  by_cases h3 : d.hasError = true ∧ d.errorKind ≠ none ∧ d.errorKind ≠ some ErrorKind.permission
      ∧ d.errorKind ≠ some ErrorKind.paused
  · simp [h3]
  simp only [if_neg h3] at hfired ⊢
  cases htm : d.timeMs with
  | none => rw [htm] at hfired; simp at hfired
  | some t =>
    rw [htm] at hfired
    by_cases h4 : th ≠ 0 ∧ th < t
    · simp [h4]
    · simp only [ne_eq] at h4 hfired
      simp [h4] at hfired

/-- C3: alert cooldown and rule arbitration, per host. (a) If an
evaluation at time t₁ emits an alert (so the host's cooldown timestamp
becomes t₁), then any evaluation for the same host at a time t₂ with
t₂ − t₁ < 60 000 emits nothing and leaves the timestamp at t₁, even for a
qualifying result — the cooldown state is this host's alone, so no other
host is involved. (b) When a result qualifies for the failure rule and the
cooldown has elapsed outside edit mode, the failure alert fires — never
the latency alert, even if both qualify — and the result is at most one
alert by construction. (c) In host-editing mode, evaluation is skipped:
nothing fires and the timestamp is unchanged. -/
theorem alert_cooldown_priority_editskip (th : ℚ) (l0 t1 t2 : ℤ) (d1 d2 : PingData)
    (hfired : (evalAlert false t1 l0 th d1).2.isSome = true)
    (_hq : alertQualifies th d2)
    (hclose : t2 - t1 < 60000) :
    (evalAlert false t2 (evalAlert false t1 l0 th d1).1 th d2) = (t1, none)
      ∧ (∀ (now last : ℤ) (d : PingData), 60000 ≤ now - last → failureQualifies d →
          evalAlert false now last th d = (now, some .failure))
      ∧ (∀ (now last : ℤ) (d : PingData), evalAlert true now last th d = (last, none)) := by
  refine ⟨?_, ?_, fun now last d => rfl⟩
  · rw [evalAlert_fired_timestamp t1 l0 th d1 hfired]
    unfold evalAlert
    simp [hclose]
  · intro now last d hcool hfq
    unfold failureQualifies at hfq
    unfold evalAlert
    rw [if_neg (by simp), if_neg (by omega), if_pos hfq]

/-- Witness for C3: a host whose probe errors at t₁ = 100 000 fires the
failure alert; a second error 50 000 ms later is suppressed by the
cooldown. -/
theorem alert_cooldown_priority_editskip_witness :
    (evalAlert false 150000 (evalAlert false 100000 0 250 ⟨"e", true, none, some .error⟩).1 250
        ⟨"e", true, none, some .error⟩) = (100000, none)
      ∧ evalAlert false 100000 0 250 ⟨"e", true, none, some .error⟩ = (100000, some .failure) := by
  have h := alert_cooldown_priority_editskip 250 0 100000 150000
    ⟨"e", true, none, some .error⟩ ⟨"e", true, none, some .error⟩
    (by decide) (Or.inl (by constructor <;> simp)) (by decide)
  exact ⟨h.1, h.2.1 100000 0 ⟨"e", true, none, some .error⟩ (by decide)
    (by constructor <;> simp)⟩

/-! ## DNS benchmark engine (App.jsx lines 1022-1084)

`handleDnsBenchmark` runs `rounds` DNS checks; each round yields one
result item per configured server (`{server, status, responseTimeMs}`).
Items are accumulated into an insertion-ordered map keyed by server
(`statsMap`), final statistics are derived and sorted ascending by average
latency, `Infinity` (here `none`) for a server with no successful round. -/

/-- One per-server result item of a DNS check round
(`response.results` entry). -/
structure DnsItem where
  server : String
  status : Bool
  responseTimeMs : Option ℚ
deriving DecidableEq, Repr

/-- `Number(x) || 0`: a missing latency contributes 0. -/
def numberOr0 : Option ℚ → ℚ
  | some t => t
  | none => 0

/-- A `statsMap` entry: `{ server, ok, total, totalMs }`. -/
structure BenchAcc where
  server : String
  ok : ℕ
  total : ℕ
  totalMs : ℚ
deriving DecidableEq, Repr

/-- Folding one result item into its server's accumulator (the body of the
`for (const item of response.results)` loop). -/
def bump (a : BenchAcc) (it : DnsItem) : BenchAcc :=
  { a with
    total := a.total + 1,
    ok := if it.status then a.ok + 1 else a.ok,
    totalMs := if it.status then a.totalMs + numberOr0 it.responseTimeMs else a.totalMs }

/-- `statsMap.get(item.server) || fresh` followed by `statsMap.set`:
a JavaScript `Map` updates an existing key in place and appends a new key
in insertion order, modelled by an association list. -/
def upsertAcc (m : List BenchAcc) (it : DnsItem) : List BenchAcc :=
  if m.any (fun a => a.server == it.server) then
    m.map (fun a => if a.server == it.server then bump a it else a)
  else m ++ [bump ⟨it.server, 0, 0, 0⟩ it]

/-- Accumulation of all rounds (the nested benchmark loops). -/
def accumulateRounds (rounds : List (List DnsItem)) : List BenchAcc :=
  rounds.foldl (fun m items => items.foldl upsertAcc m) []

/-- A final benchmark statistic; `averageMs = none` models
`Number.POSITIVE_INFINITY` (no successful round). -/
structure BenchStat where
  server : String
  averageMs : Option ℚ
  successRate : ℤ
deriving DecidableEq, Repr

/-- `averageMs = ok > 0 ? totalMs / ok : Infinity` and
`successRate = Math.round((ok / total) * 100)`. -/
def mkStat (a : BenchAcc) : BenchStat :=
  { server := a.server,
    averageMs := if 0 < a.ok then some (a.totalMs / a.ok) else none,
    successRate := jsRound ((a.ok : ℚ) / (a.total : ℚ) * 100) }

/-- The order imposed by `.sort((a, b) => a.averageMs - b.averageMs)`:
ascending averages with `Infinity` (`none`) last. -/
def statLE (a b : BenchStat) : Prop :=
  match a.averageMs, b.averageMs with
  | some x, some y => x ≤ y
  | some _, none => True
  | none, some _ => False
  | none, none => True

instance : DecidableRel statLE := fun a b => by
  unfold statLE
  cases a.averageMs <;> cases b.averageMs <;> infer_instance

instance : IsTotal BenchStat statLE :=
  ⟨fun a b => by
    unfold statLE
    cases a.averageMs <;> cases b.averageMs <;> simp [le_total]⟩

instance : IsTrans BenchStat statLE :=
  ⟨fun a b c hab hbc => by
    unfold statLE at *
    cases ha : a.averageMs <;> cases hb : b.averageMs <;> cases hc : c.averageMs <;>
      · rw [ha, hb] at hab
        rw [hb, hc] at hbc
        simp_all
        try exact le_trans hab hbc⟩

/-- ECMAScript `Array.prototype.sort` is a stable sort by the comparator;
modelled by insertion sort with respect to `statLE`. -/
def sortStats (l : List BenchStat) : List BenchStat := l.insertionSort statLE

/-- The clamp `Math.max(1, Math.min(10, Number(dnsBenchmarkRounds) || 3))`
applied to the requested round count (0 models the falsy default). -/
def clampRounds (n : ℤ) : ℤ := max 1 (min 10 (if n = 0 then 3 else n))

/-- The aggregate statistics published by a completed benchmark. -/
def benchStats (rounds : List (List DnsItem)) : List BenchStat :=
  sortStats ((accumulateRounds rounds).map mkStat)

/-! Per-server characterization of the accumulation. -/

/-- Lookup of the accumulator of server `s`. -/
def findAcc (m : List BenchAcc) (s : String) : Option BenchAcc :=
  m.find? (fun a => a.server == s)

/-- `bump` lifted to an optional accumulator (a missing entry starts
fresh). -/
def optBump (s : String) (o : Option BenchAcc) (it : DnsItem) : Option BenchAcc :=
  some (bump (o.getD ⟨s, 0, 0, 0⟩) it)

theorem bump_server (a : BenchAcc) (it : DnsItem) : (bump a it).server = a.server := rfl

theorem findAcc_upsert (m : List BenchAcc) (it : DnsItem) (s : String) :
    findAcc (upsertAcc m it) s =
      if it.server == s then optBump s (findAcc m s) it else findAcc m s := by
  unfold upsertAcc findAcc optBump
  by_cases hmem : m.any (fun a => a.server == it.server)
  · rw [if_pos hmem]
    rw [List.find?_map]
    have hcomp : ((fun a => a.server == s) ∘ fun a =>
        if a.server == it.server then bump a it else a) = (fun a => a.server == s) := by
      funext a
      by_cases h : a.server = it.server
      · simp [Function.comp, h, bump_server]
      · simp [Function.comp, h]
    rw [hcomp]
    by_cases hs : (it.server == s) = true
    · rw [if_pos hs]
      have hs' : it.server = s := by simpa using hs
      rcases hfind : m.find? (fun a => a.server == s) with _ | a₀
      · exfalso
        simp only [List.any_eq_true] at hmem
        rcases hmem with ⟨a, ha, hpa⟩
        rw [List.find?_eq_none] at hfind
        exact hfind a ha (by simpa [hs'] using hpa)
      · have ha₀ := List.find?_some hfind
        have ha₀' : a₀.server = s := by simpa using ha₀
        rw [hfind]
        simp only [Option.map_some']
        rw [if_pos (by simp [ha₀', hs'])]
        simp
    · rw [if_neg hs]
      rcases hfind : m.find? (fun a => a.server == s) with _ | a₀
      · rw [hfind]
        simp
      · have ha₀ := List.find?_some hfind
        have ha₀' : a₀.server = s := by simpa using ha₀
        have hne : ¬((a₀.server == it.server) = true) := by
          rw [beq_iff_eq, ha₀']
          intro h
          exact hs (by simp [h])
        rw [hfind]
        simp only [Option.map_some']
        rw [if_neg hne]
  · rw [if_neg hmem]
    rw [List.find?_append]
    by_cases hs : (it.server == s) = true
    · have hs' : it.server = s := by simpa using hs
      have hnone : m.find? (fun a => a.server == s) = none := by
        rw [List.find?_eq_none]
        intro a ha hpa
        apply hmem
        simp only [List.any_eq_true]
        exact ⟨a, ha, by simpa [hs'] using hpa⟩
      rw [if_pos hs, hnone]
      simp [bump_server, hs']
    · rw [if_neg hs]
      have hone : List.find? (fun a => a.server == s) [bump ⟨it.server, 0, 0, 0⟩ it] = none := by
        have : ¬((bump ⟨it.server, 0, 0, 0⟩ it).server == s) = true := by
          rw [bump_server]
          exact hs
        simp [this]
      rw [hone]
      simp

theorem findAcc_foldl (s : String) (l : List DnsItem) :
    ∀ m : List BenchAcc,
      findAcc (l.foldl upsertAcc m) s
        = (l.filter (fun it => it.server == s)).foldl (optBump s) (findAcc m s) := by
  induction l with
  | nil => intro m; rfl
  | cons it l ih =>
    intro m
    simp only [List.foldl_cons]
    rw [ih (upsertAcc m it), findAcc_upsert]
    by_cases hs : it.server == s
    · simp [List.filter_cons, hs]
    · simp [List.filter_cons, hs]

theorem foldl_optBump_some (s : String) (l : List DnsItem) :
    ∀ a : BenchAcc, l.foldl (optBump s) (some a) = some (l.foldl bump a) := by
  induction l with
  | nil => intro a; rfl
  | cons it l ih => intro a; simp only [List.foldl_cons, optBump, Option.getD_some]; exact ih _

theorem foldl_bump_fields (l : List DnsItem) :
    ∀ a : BenchAcc,
      l.foldl bump a =
        ⟨a.server,
          a.ok + (l.filter (fun it => it.status)).length,
          a.total + l.length,
          a.totalMs + ((l.filter (fun it => it.status)).map
            (fun it => numberOr0 it.responseTimeMs)).sum⟩ := by
  induction l with
  | nil => intro a; simp
  | cons it l ih =>
    intro a
    simp only [List.foldl_cons, List.filter_cons]
    rw [ih (bump a it)]
    by_cases hst : it.status = true
    · rw [if_pos hst]
      simp only [bump, if_pos hst, List.length_cons, List.map_cons, List.sum_cons,
        BenchAcc.mk.injEq]
      refine ⟨?_, ?_, ?_, ?_⟩
      all_goals first | trivial | omega | ring
    · rw [if_neg hst]
      simp only [bump, if_neg hst, List.length_cons, BenchAcc.mk.injEq]
      refine ⟨?_, ?_, ?_, ?_⟩
      all_goals first | trivial | omega

theorem findAcc_accumulate (rounds : List (List DnsItem)) (s : String)
    (hocc : rounds.flatten.filter (fun it => it.server == s) ≠ []) :
    findAcc (accumulateRounds rounds) s
      = some ((rounds.flatten.filter (fun it => it.server == s)).foldl bump ⟨s, 0, 0, 0⟩) := by
  have h1 : accumulateRounds rounds = rounds.flatten.foldl upsertAcc [] := by
    unfold accumulateRounds
    rw [List.foldl_flatten]
  rw [h1, findAcc_foldl]
  have h0 : findAcc [] s = none := rfl
  rw [h0]
  cases hl : rounds.flatten.filter (fun it => it.server == s) with
  | nil => exact absurd hl hocc
  | cons x xs =>
    simp only [List.foldl_cons, optBump, Option.getD_none]
    rw [foldl_optBump_some]

/-- The items reported for server `s` across all rounds. -/
def serverItems (rounds : List (List DnsItem)) (s : String) : List DnsItem :=
  rounds.flatten.filter (fun it => it.server == s)

/-- The latencies of the successful rounds of server `s`
(the specification's "latencies over only its successful rounds"). -/
def successLatencies (rounds : List (List DnsItem)) (s : String) : List ℚ :=
  ((serverItems rounds s).filter (fun it => it.status)).filterMap (fun it => it.responseTimeMs)

theorem filterMap_eq_map_numberOr0 (l : List DnsItem)
    (h : ∀ it ∈ l, it.responseTimeMs ≠ none) :
    l.filterMap (fun it => it.responseTimeMs) = l.map (fun it => numberOr0 it.responseTimeMs) := by
  induction l with
  | nil => rfl
  | cons it l ih =>
    rcases hit : it.responseTimeMs with _ | t
    · exact absurd hit (h it (by simp))
    · simp only [List.filterMap_cons, List.map_cons, hit, numberOr0]
      rw [ih (fun x hx => h x (by simp [hx]))]
      rfl

theorem serverItems_length (rounds : List (List DnsItem)) (s : String)
    (huniq : ∀ r ∈ rounds, (r.filter (fun it => it.server == s)).length = 1) :
    (serverItems rounds s).length = rounds.length := by
  induction rounds with
  | nil => rfl
  | cons r rs ih =>
    unfold serverItems at *
    simp only [List.flatten_cons, List.filter_append, List.length_append, List.length_cons]
    rw [ih (fun x hx => huniq x (by simp [hx])), huniq r (by simp)]
    omega

theorem serverItems_ne_nil (rounds : List (List DnsItem)) (s : String)
    (hrounds : rounds ≠ [])
    (huniq : ∀ r ∈ rounds, (r.filter (fun it => it.server == s)).length = 1) :
    serverItems rounds s ≠ [] := by
  intro hnil
  have := serverItems_length rounds s huniq
  rw [hnil] at this
  cases rounds with
  | nil => exact hrounds rfl
  | cons r rs => simp at this

/-- C4: final statistics of a completed DNS benchmark. With the round
count clamped to 1-10 (default 3 for a falsy input), and each round
reporting exactly one item for server `s` with a numeric latency on every
success: the published statistics contain an entry for `s` whose average
latency is the mean of the latencies of its successful rounds only (`none`,
i.e. unbounded, when it never succeeded) and whose success-rate percent is
`round(100 * successCount / totalRounds)`; and in the final ascending
ranking every server with zero successes sorts after every server with at
least one success (once an unbounded average appears, all later entries
are unbounded). -/
theorem dns_benchmark_stats (rounds : List (List DnsItem)) (s : String) (n : ℤ)
    (hrounds : rounds ≠ [])
    (huniq : ∀ r ∈ rounds, (r.filter (fun it => it.server == s)).length = 1)
    (hnum : ∀ it ∈ serverItems rounds s, it.status = true → it.responseTimeMs ≠ none) :
    (∃ st ∈ benchStats rounds,
        st.server = s
          ∧ st.averageMs = (if 0 < (successLatencies rounds s).length
              then some ((successLatencies rounds s).sum / ((successLatencies rounds s).length : ℚ))
              else none)
          ∧ st.successRate
              = jsRound (100 * ((successLatencies rounds s).length : ℚ) / (rounds.length : ℚ)))
      ∧ (benchStats rounds).Pairwise (fun a b => a.averageMs = none → b.averageMs = none)
      ∧ 1 ≤ clampRounds n ∧ clampRounds n ≤ 10 ∧ clampRounds 0 = 3 := by
  refine ⟨?_, ?_, ?_, ?_, by decide⟩
  · -- the statistic entry for server s
    have hocc : serverItems rounds s ≠ [] := serverItems_ne_nil rounds s hrounds huniq
    have hfind := findAcc_accumulate rounds s hocc
    set occ := serverItems rounds s with hocc_def
    have hfold := foldl_bump_fields occ ⟨s, 0, 0, 0⟩
    set acc := occ.foldl bump ⟨s, 0, 0, 0⟩ with hacc_def
    have hmem : acc ∈ accumulateRounds rounds := by
      have := List.mem_of_find?_eq_some hfind
      exact this
    have hsucc : successLatencies rounds s
        = (occ.filter (fun it => it.status)).map (fun it => numberOr0 it.responseTimeMs) := by
      unfold successLatencies
      rw [← hocc_def]
      exact filterMap_eq_map_numberOr0 _ (fun x hx => hnum x (List.mem_of_mem_filter hx) (List.of_mem_filter hx))
    have hlen : (successLatencies rounds s).length = (occ.filter (fun it => it.status)).length := by
      rw [hsucc, List.length_map]
    have hsum : (successLatencies rounds s).sum
        = ((occ.filter (fun it => it.status)).map (fun it => numberOr0 it.responseTimeMs)).sum := by
      rw [hsucc]
    refine ⟨mkStat acc, ?_, ?_, ?_, ?_⟩
    · unfold benchStats sortStats
      rw [List.mem_insertionSort]
      exact List.mem_map_of_mem mkStat hmem
    · rw [hfold]
      rfl
    · rw [hfold]
      simp [mkStat, hsum, hlen]
    · rw [hfold]
      simp only [mkStat, Nat.zero_add]
      have htot : occ.length = rounds.length := serverItems_length rounds s huniq
      rw [hlen, htot]
      congr 1
      ring
  · -- sortedness: unbounded averages sort last
    have hsorted : List.Sorted statLE (benchStats rounds) := by
      unfold benchStats sortStats
      exact List.sorted_insertionSort statLE _
    refine List.Pairwise.imp ?_ hsorted
    intro a b hab ha
    cases hb : b.averageMs with
    | none => rfl
    | some t =>
      exfalso
      unfold statLE at hab
      rw [ha, hb] at hab
      exact hab
  · unfold clampRounds
    split <;> omega
  · unfold clampRounds
    split <;> omega

/-- A concrete two-round benchmark: server 1.1.1.1 succeeds in round one
(10 ms) and fails in round two. -/
def benchExampleRounds : List (List DnsItem) :=
  [[⟨"1.1.1.1", true, some 10⟩], [⟨"1.1.1.1", false, none⟩]]

/-- Witness for C4 at the concrete two-round benchmark. -/
theorem dns_benchmark_stats_witness :
    (∃ st ∈ benchStats benchExampleRounds,
        st.server = "1.1.1.1"
          ∧ st.averageMs = (if 0 < (successLatencies benchExampleRounds "1.1.1.1").length
              then some ((successLatencies benchExampleRounds "1.1.1.1").sum
                / ((successLatencies benchExampleRounds "1.1.1.1").length : ℚ))
              else none)
          ∧ st.successRate
              = jsRound (100 * ((successLatencies benchExampleRounds "1.1.1.1").length : ℚ)
                / ((benchExampleRounds.length : ℚ))))
      ∧ (benchStats benchExampleRounds).Pairwise
          (fun a b => a.averageMs = none → b.averageMs = none)
      ∧ 1 ≤ clampRounds 5 ∧ clampRounds 5 ≤ 10 ∧ clampRounds 0 = 3 :=
  dns_benchmark_stats benchExampleRounds "1.1.1.1" 5 (by decide) (by decide) (by decide)

/-! ## Host registry (App.jsx: `useHosts`, `handleDeleteHost`,
`handleToggleHostPause`, `handleToggleHostPin`, `moveHostByIds`)

A host is either a built-in default (identified by label and address) or a
user-added custom host (identified by a generated id). A default host
loaded from storage has no `pinned`/`paused` fields; JavaScript's
`Boolean(undefined) = false` is modelled by explicit `false` fields. -/

inductive HostType
  | defaultHost
  | custom
deriving DecidableEq, Repr

/-- A registry entry. `id` is meaningful only for custom hosts. -/
structure Host where
  type : HostType
  id : ℤ
  label : String
  host : String
  pinned : Bool
  paused : Bool
deriving DecidableEq, Repr

/-- `getHostKey`: `custom-${id}` for custom hosts,
`default-${label}-${host}` for defaults. -/
inductive HostKey
  | customKey (id : ℤ)
  | defaultKey (label host : String)
deriving DecidableEq, Repr

def getHostKey (h : Host) : HostKey :=
  match h.type with
  | .custom => .customKey h.id
  | .defaultHost => .defaultKey h.label h.host

/-- `addHost`: the new custom host (unpinned, unpaused) is prepended to
the front of the list. -/
def addHost (allHosts : List Host) (label host : String) (newId : ℤ) : List Host :=
  ⟨.custom, newId, label, host, false, false⟩ :: allHosts

/-- `handleDeleteHost`: drop the host matching the target's identity. -/
def handleDeleteHost (allHosts : List Host) (hostToDelete : Host) : List Host :=
  allHosts.filter (fun h =>
    match h.type with
    | .custom => !(h.id == hostToDelete.id)
    | .defaultHost => !(h.label == hostToDelete.label && h.host == hostToDelete.host))

/-- `handleToggleHostPause` (via `updateHostById`): flip the `paused` flag
of the host with the given key, in place. -/
def handleToggleHostPause (hostId : HostKey) (l : List Host) : List Host :=
  l.map (fun item => if getHostKey item = hostId then { item with paused := !item.paused } else item)

/-- `handleToggleHostPin`: locate the host; flip its `pinned` flag; if now
pinned move it to the front, otherwise re-insert it at its old index in the
remaining list. -/
def handleToggleHostPin (hostId : HostKey) (prevHosts : List Host) : List Host :=
  match prevHosts.findIdx? (fun item => getHostKey item = hostId) with
  | none => prevHosts
  | some sourceIndex =>
    match prevHosts[sourceIndex]? with
    | none => prevHosts
    | some source =>
      let updated := { source with pinned := !source.pinned }
      let rest := prevHosts.eraseIdx sourceIndex
      if !source.pinned then updated :: rest
      else rest.take sourceIndex ++ updated :: rest.drop sourceIndex

/-- `arrayMove` from dnd-kit: remove the element at `from`, re-insert it
at `to`. -/
def arrayMove (l : List Host) (i j : ℕ) : List Host :=
  match l[i]? with
  | none => l
  | some x =>
    let removed := l.eraseIdx i
    removed.take j ++ x :: removed.drop j

/-- `moveHostByIds`: drag-and-drop reorder between two host keys. -/
def moveHostByIds (activeId overId : HostKey) (prevHosts : List Host) : List Host :=
  match prevHosts.findIdx? (fun h => getHostKey h = activeId),
      prevHosts.findIdx? (fun h => getHostKey h = overId) with
  | some oldIndex, some newIndex =>
    if oldIndex = newIndex then prevHosts else arrayMove prevHosts oldIndex newIndex
  | _, _ => prevHosts

/-- The claimed registry invariant: every pinned host precedes every
unpinned host. -/
def pinnedPrecede (l : List Host) : Prop :=
  l.Pairwise (fun a b => a.pinned = false → b.pinned = false)

/-- A pinned default host, as the registry holds after pinning one of the
built-ins. -/
def pinnedGoogleHost : Host := ⟨.defaultHost, 0, "Google DNS", "8.8.8.8", true, false⟩

/-- C5 counterexample: `addHost` always prepends the new, unpinned host to
the very front of the list, so adding a host to a registry that contains a
pinned host breaks the pinned-precede-unpinned order: the claimed
invariant is not preserved by every mutating operation. -/
theorem addHost_breaks_pinnedPrecede :
    pinnedPrecede [pinnedGoogleHost]
      ∧ ¬ pinnedPrecede (addHost [pinnedGoogleHost] "My Host" "example.com" 1) := by
  constructor
  · simp [pinnedPrecede]
  · intro hp
    unfold pinnedPrecede addHost at hp
    rw [List.pairwise_cons] at hp
    have := hp.1 pinnedGoogleHost (by simp)
    simp [pinnedGoogleHost] at this

/-- C5 as amended: pinned-precede-unpinned is preserved by toggling pause
(order and pin flags unchanged), by delete (a sublist), and by pinning a
currently unpinned host (it moves to the front); it is not an invariant of
every mutation — `addHost` prepends the new unpinned host to the very
front regardless of pinned entries (and unpinning or drag reorder are
likewise unconstrained). -/
theorem pinnedPrecede_preserved_pause_delete_pin (l : List Host)
    (hinv : pinnedPrecede l) :
    (∀ k, pinnedPrecede (handleToggleHostPause k l))
      ∧ (∀ h, pinnedPrecede (handleDeleteHost l h))
      ∧ (∀ k, (∀ src ∈ l, getHostKey src = k → src.pinned = false) →
          pinnedPrecede (handleToggleHostPin k l)) := by
  refine ⟨?_, ?_, ?_⟩
  · intro k
    unfold handleToggleHostPause pinnedPrecede
    rw [List.pairwise_map]
    refine hinv.imp_of_mem ?_
    intro a b _ _ hab
    by_cases ha : getHostKey a = k <;> by_cases hb : getHostKey b = k <;>
      simp [ha, hb] <;> exact hab
  · intro h
    exact hinv.sublist (List.filter_sublist _)
  · intro k hunpinned
    unfold handleToggleHostPin
    split
    · exact hinv
    next sourceIndex hidx =>
      split
      · exact hinv
      next source hget =>
        rw [List.findIdx?_eq_some_iff_getElem] at hidx
        rcases hidx with ⟨hlt, hp, _⟩
        have hgetq : l[sourceIndex]? = some l[sourceIndex] := List.getElem?_eq_getElem hlt
        rw [hgetq] at hget
        injection hget with hget
        have hkey : getHostKey source = k := by
          rw [← hget]
          simpa using hp
        have hmem : source ∈ l := by
          rw [← hget]
          exact l.getElem_mem hlt
        have hunp : source.pinned = false := hunpinned source hmem hkey
        rw [if_pos (show (!source.pinned) = true by simp [hunp])]
        unfold pinnedPrecede
        rw [List.pairwise_cons]
        constructor
        · intro b _ hfalse
          simp [hunp] at hfalse
        · exact hinv.sublist (List.eraseIdx_sublist l sourceIndex)

/-- Witness for C5 as amended, at a concrete two-host registry. -/
theorem pinnedPrecede_preserved_witness :
    pinnedPrecede [pinnedGoogleHost, ⟨.custom, 1, "A", "a.com", false, false⟩]
      ∧ pinnedPrecede (handleToggleHostPause (.customKey 1)
          [pinnedGoogleHost, ⟨.custom, 1, "A", "a.com", false, false⟩])
      ∧ pinnedPrecede (handleDeleteHost
          [pinnedGoogleHost, ⟨.custom, 1, "A", "a.com", false, false⟩]
          ⟨.custom, 1, "A", "a.com", false, false⟩)
      ∧ pinnedPrecede (handleToggleHostPin (.customKey 1)
          [pinnedGoogleHost, ⟨.custom, 1, "A", "a.com", false, false⟩]) := by
  have hinv : pinnedPrecede [pinnedGoogleHost, ⟨.custom, 1, "A", "a.com", false, false⟩] := by
    unfold pinnedPrecede pinnedGoogleHost
    rw [List.pairwise_cons]
    refine ⟨?_, by simp⟩
    intro b hb hfalse
    simp at hfalse
  have h := pinnedPrecede_preserved_pause_delete_pin _ hinv
  refine ⟨hinv, h.1 _, h.2.1 _, h.2.2 (.customKey 1) ?_⟩
  intro src hsrc hkey
  simp only [List.mem_cons, List.mem_singleton, List.not_mem_nil, or_false] at hsrc
  rcases hsrc with h1 | h2
  · rw [h1] at hkey
    simp [getHostKey, pinnedGoogleHost] at hkey
  · rw [h2]

/-! ## Domain sanitization and batch pre-processing
(App.jsx: `sanitizeDomain` lines 919-926, `handleBatchDomains` lines
1086-1097). -/

/-- Case-insensitive match of a lowercase pattern against the start of a
character list (the `/^https?:\/\//i` test). -/
def matchesLowered : List Char → List Char → Bool
  | [], _ => true
  | _ :: _, [] => false
  | p :: ps, c :: cs => p == c.toLower && matchesLowered ps cs

/-- `.replace(/^https?:\/\//i, '')`. -/
def stripScheme (cs : List Char) : List Char :=
  if matchesLowered "https://".toList cs then cs.drop 8
  else if matchesLowered "http://".toList cs then cs.drop 7
  else cs

/-- `sanitizeDomain`: trim, strip the scheme, then keep only the part
before the first `/`, `?` and `#`. There is no domain-syntax validation
here. -/
def sanitizeDomain (input : String) : String :=
  let cs := (jsTrim input).toList
  let cs := stripScheme cs
  let cs := headOfSplit '/' cs
  let cs := headOfSplit '?' cs
  let cs := headOfSplit '#' cs
  String.mk cs

/-- The `\r?\n` separator: a `\r` directly before a split point belongs to
the separator, so each piece except the last loses one trailing `\r`. -/
def stripTrailingCR : List (List Char) → List (List Char)
  | [] => []
  | [x] => [x]
  | x :: y :: ys =>
    (if x.getLast? == some '\r' then x.dropLast else x) :: stripTrailingCR (y :: ys)

/-- `batchDomainsInput.split(/\r?\n/)`. -/
def splitLines (s : String) : List String :=
  (stripTrailingCR (splitOnChar '\n' s.toList)).map String.mk

/-- `.filter((value, index, arr) => arr.indexOf(value) === index)`:
deduplicate keeping first occurrences. -/
def dedupeKeepFirst : List String → List String → List String
  | _, [] => []
  | seen, x :: xs =>
    if x ∈ seen then dedupeKeepFirst seen xs else x :: dedupeKeepFirst (x :: seen) xs

/-- The batch-mode pre-processing of `handleBatchDomains`: split on
newlines, sanitize each line, drop empty results, deduplicate keeping
first occurrences, cap at 30 domains. -/
def batchDomainsPreprocess (batchDomainsInput : String) : List String :=
  let domains := ((splitLines batchDomainsInput).map sanitizeDomain).filter (fun s => s ≠ "")
  (dedupeKeepFirst [] domains).take 30

/-- C6 counterexample: for the input
`"youtube.com\nyoutube.com\n\ninvalid..\n"` the resulting domain list is
not the single entry `"youtube.com"`: sanitization strips URL parts but
does not validate domain syntax, so `"invalid.."` is non-empty and kept. -/
theorem batch_example_not_single :
    batchDomainsPreprocess "youtube.com\nyoutube.com\n\ninvalid..\n" ≠ ["youtube.com"] := by
  decide

/-- C6 as amended: the pre-processing splits on newlines, sanitizes,
drops empties, dedupes keeping first occurrences and caps at 30; on the
example input the result is exactly `["youtube.com", "invalid.."]` — the
duplicate and the empty lines are dropped, but `"invalid.."` survives
because sanitization performs no domain-syntax validation. -/
theorem batch_example_preprocess :
    batchDomainsPreprocess "youtube.com\nyoutube.com\n\ninvalid..\n"
        = ["youtube.com", "invalid.."]
      ∧ ∀ input : String, (batchDomainsPreprocess input).length ≤ 30 := by
  refine ⟨by decide, ?_⟩
  intro input
  unfold batchDomainsPreprocess
  exact List.length_take_le 30 _

/-! ## Benchmark failure handling (App.jsx `handleDnsBenchmark`,
lines 1022-1084)

`runDnsCheck` converts every transport-level failure (IPC rejection or an
error field in the response) into `{ error: 'failed' }`; inside the
benchmark loop such a round throws, aborting the loop. `setDnsResults` is
called only when the final round index is reached. -/

/-- A log entry (`{type, title, detail}`; the generated id and timestamp
are not modelled). -/
structure LogEntry where
  type : String
  title : String
  detail : String
deriving DecidableEq, Repr

/-- `addLogEntry`: prepend and cap at the 200 most recent entries. -/
def addLogEntry (log : List LogEntry) (e : LogEntry) : List LogEntry :=
  (e :: log).take 200

/-- The UI state touched by `handleDnsBenchmark`. -/
structure DnsUiState where
  dnsResults : List DnsItem
  dnsBenchmarkStats : List BenchStat
  dnsError : String
  logEntries : List LogEntry
deriving DecidableEq, Repr

/-- Outcome of one `runDnsCheck` invocation: a result list, or a
transport-level failure of the whole check. -/
inductive RoundResult
  | ok (items : List DnsItem)
  | err
deriving DecidableEq, Repr

/-- The benchmark loop collects every round's results; the first failing
round throws, aborting the whole operation. -/
def collectRounds : List RoundResult → Option (List (List DnsItem))
  | [] => some []
  | .ok items :: rest => (collectRounds rest).map (fun itemss => items :: itemss)
  | .err :: _ => none

def dnsBenchmarkFailedText : String := "dnsBenchmarkFailed"

def logDnsBenchmarkTitle : String := "logDnsBenchmark"

def logDnsFailedTitle : String := "logDnsFailed"

def dnsFailedShortText : String := "failed"

/-- `fastestText`: the top-3 finite averages rendered
`server roundedMs ms`, joined with pipes. -/
def fastestText (stats : List BenchStat) : String :=
  let fastest := (stats.filter (fun st => st.averageMs.isSome)).take 3
  String.intercalate " | "
    (fastest.map (fun st => st.server ++ " " ++ toString (jsRound (st.averageMs.getD 0)) ++ "ms"))

/-- `handleDnsBenchmark` after domain sanitization succeeded: clear the
error and the previous statistics, run the rounds; on completion publish
the final round's results, the sorted statistics and a benchmark log
entry; on a transport-level failure of any round, abort with the
benchmark-failed error and a single failure log entry (`dnsResults` is
only assigned when the final round index is reached, so it keeps its
pre-benchmark value on abort). -/
def handleDnsBenchmark (sanitized : String) (outcomes : List RoundResult)
    (st : DnsUiState) : DnsUiState :=
  match collectRounds outcomes with
  | some itemss =>
    let stats := benchStats itemss
    let ft := fastestText stats
    { dnsResults := (match itemss.getLast? with
        | some items => items
        | none => st.dnsResults),
      dnsBenchmarkStats := stats,
      dnsError := "",
      logEntries := addLogEntry st.logEntries
        ⟨"dns", logDnsBenchmarkTitle,
          sanitized ++ " • " ++ toString outcomes.length ++ "x • "
            ++ (if ft = "" then dnsFailedShortText else ft)⟩ }
  | none =>
    { dnsResults := st.dnsResults,
      dnsBenchmarkStats := [],
      dnsError := dnsBenchmarkFailedText,
      logEntries := addLogEntry st.logEntries
        ⟨"dns", logDnsFailedTitle, sanitized ++ " • " ++ dnsBenchmarkFailedText⟩ }

theorem collectRounds_eq_none_of_err (outcomes : List RoundResult)
    (herr : RoundResult.err ∈ outcomes) : collectRounds outcomes = none := by
  induction outcomes with
  | nil => simp at herr
  | cons o os ih =>
    cases o with
    | err => rfl
    | ok items =>
      have hmem : RoundResult.err ∈ os := by
        rcases List.mem_cons.mp herr with h | h
        · simp at h
        · exact h
      simp only [collectRounds, ih hmem, Option.map_none']

/-- The first successful round of the two-round counterexample. -/
def c7RoundOne : List DnsItem := [⟨"8.8.8.8", true, some 20⟩]

/-- C7 counterexample: with an empty pre-benchmark display, round one
succeeds (results `c7RoundOne`) and round two fails at transport level.
The benchmark aborts — but the results of the last successful round do
NOT remain visible: `dnsResults` stays at its pre-benchmark value `[]`,
because round results are only published when the final round index is
reached. -/
theorem bench_abort_drops_last_success :
    (handleDnsBenchmark "example.com" [.ok c7RoundOne, .err] ⟨[], [], "", []⟩).dnsResults
        ≠ c7RoundOne
      ∧ (handleDnsBenchmark "example.com" [.ok c7RoundOne, .err] ⟨[], [], "", []⟩).dnsResults
        = [] := by
  constructor
  · decide
  · rfl

/-- C7 as amended: a transport-level failure of the whole DNS check during
any benchmark round aborts the operation, which is reported as a single
top-level error (the benchmark-failed message plus exactly one new failure
log entry); no aggregate statistics are published (they are left cleared),
and the per-server results display keeps its pre-benchmark value — the
rounds completed before the failure, including the last successful one,
publish nothing. -/
theorem bench_abort_behavior (sanitized : String) (outcomes : List RoundResult)
    (st : DnsUiState) (herr : RoundResult.err ∈ outcomes) :
    (handleDnsBenchmark sanitized outcomes st).dnsResults = st.dnsResults
      ∧ (handleDnsBenchmark sanitized outcomes st).dnsBenchmarkStats = []
      ∧ (handleDnsBenchmark sanitized outcomes st).dnsError = dnsBenchmarkFailedText
      ∧ (handleDnsBenchmark sanitized outcomes st).logEntries
        = addLogEntry st.logEntries
            ⟨"dns", logDnsFailedTitle, sanitized ++ " • " ++ dnsBenchmarkFailedText⟩ := by
  unfold handleDnsBenchmark
  rw [collectRounds_eq_none_of_err outcomes herr]
  exact ⟨rfl, rfl, rfl, rfl⟩

/-- Witness for C7 as amended at the concrete two-round benchmark. -/
theorem bench_abort_behavior_witness :
    (handleDnsBenchmark "example.com" [.ok c7RoundOne, .err] ⟨c7RoundOne, [], "", []⟩).dnsResults
        = c7RoundOne
      ∧ (handleDnsBenchmark "example.com" [.ok c7RoundOne, .err]
          ⟨c7RoundOne, [], "", []⟩).dnsBenchmarkStats = []
      ∧ (handleDnsBenchmark "example.com" [.ok c7RoundOne, .err]
          ⟨c7RoundOne, [], "", []⟩).dnsError = dnsBenchmarkFailedText
      ∧ (handleDnsBenchmark "example.com" [.ok c7RoundOne, .err]
          ⟨c7RoundOne, [], "", []⟩).logEntries
        = addLogEntry []
            ⟨"dns", logDnsFailedTitle, "example.com" ++ " • " ++ dnsBenchmarkFailedText⟩ :=
  bench_abort_behavior "example.com" [.ok c7RoundOne, .err] ⟨c7RoundOne, [], "", []⟩
    (by decide)

/-! ## Custom DNS server validation (App.jsx lines 928-954) -/

/-- `normalizeDnsServer`: trim (an empty trim result is returned as
the empty string). -/
def normalizeDnsServer (value : String) : String := jsTrim value

def isDigitChar (c : Char) : Bool := '0' ≤ c && c ≤ '9'

/-- One dot-separated chunk of the IPv4 regex
`25[0-5] | 2[0-4]\d | 1\d{2} | [1-9]?\d`, matched in full. -/
def ipv4OctetOk : List Char → Bool
  | ['2', '5', c] => '0' ≤ c && c ≤ '5'
  | ['2', c, d] => '0' ≤ c && c ≤ '4' && isDigitChar d
  | ['1', c, d] => isDigitChar c && isDigitChar d
  | [c, d] => '1' ≤ c && c ≤ '9' && isDigitChar d
  | [c] => isDigitChar c
  | _ => false

/-- `/^(octet)(\.(octet)){3}$/`: exactly four dot-separated chunks, each a
full octet match (the group cannot consume a dot, so the regex
decomposition is forced). -/
def isIPv4 (s : String) : Bool :=
  let parts := splitOnChar '.' s.toList
  parts.length == 4 && parts.all ipv4OctetOk

def isHexChar (c : Char) : Bool :=
  isDigitChar c || ('a' ≤ c && c ≤ 'f') || ('A' ≤ c && c ≤ 'F')

def ipv6GroupOk (cs : List Char) : Bool :=
  decide (1 ≤ cs.length) && decide (cs.length ≤ 4) && cs.all isHexChar

/-- `/^([0-9a-fA-F]{1,4}:){1,7}[0-9a-fA-F]{1,4}$/`: two to eight
colon-separated groups of one to four hex digits. -/
def isIPv6 (s : String) : Bool :=
  let parts := splitOnChar ':' s.toList
  decide (2 ≤ parts.length) && decide (parts.length ≤ 8) && parts.all ipv6GroupOk

/-- `isValidDnsServer`: non-empty after normalization, and an IPv4 or
IPv6 literal. -/
def isValidDnsServer (value : String) : Bool :=
  let normalized := normalizeDnsServer value
  if normalized = "" then false
  else isIPv4 normalized || isIPv6 normalized

def dnsCustomInvalidText : String := "dnsCustomInvalid"

/-- The UI state touched by `handleAddCustomDns`. -/
structure CustomDnsState where
  customDnsServers : List String
  dnsError : String
  customDnsInput : String
deriving DecidableEq, Repr

/-- `handleAddCustomDns`: reject an invalid candidate with the
invalid-DNS error and no other change; otherwise clear the error, append
the server unless already present, and clear the input field. -/
def handleAddCustomDns (st : CustomDnsState) : CustomDnsState :=
  let normalized := normalizeDnsServer st.customDnsInput
  if !(isValidDnsServer normalized) then { st with dnsError := dnsCustomInvalidText }
  else
    { customDnsServers :=
        if normalized ∈ st.customDnsServers then st.customDnsServers
        else st.customDnsServers ++ [normalized],
      dnsError := "",
      customDnsInput := "" }

/-- C8: adding a custom DNS server succeeds only for candidates that
(after trimming) match IPv4 or IPv6 literal syntax. An invalid candidate
is rejected with the invalid-DNS error and the server list is left
completely unchanged; in particular `"1.1.1.2"` is accepted (appended, no
error) and `"not-an-ip"` is rejected with the list unchanged. -/
theorem custom_dns_validation (st : CustomDnsState) :
    (isValidDnsServer (normalizeDnsServer st.customDnsInput) = false →
        (handleAddCustomDns st).customDnsServers = st.customDnsServers
          ∧ (handleAddCustomDns st).dnsError = dnsCustomInvalidText
          ∧ (handleAddCustomDns st).customDnsInput = st.customDnsInput)
      ∧ (∀ (l : List String) (e : String), "1.1.1.2" ∉ l →
          handleAddCustomDns ⟨l, e, "1.1.1.2"⟩ = ⟨l ++ ["1.1.1.2"], "", ""⟩)
      ∧ (∀ (l : List String) (e : String),
          handleAddCustomDns ⟨l, e, "not-an-ip"⟩ = ⟨l, dnsCustomInvalidText, "not-an-ip"⟩) := by
  refine ⟨?_, ?_, ?_⟩
  · intro hinvalid
    unfold handleAddCustomDns
    rw [if_pos (by rw [hinvalid]; rfl)]
    exact ⟨rfl, rfl, rfl⟩
  · intro l e hnotmem
    have hnorm : normalizeDnsServer "1.1.1.2" = "1.1.1.2" := by decide
    have hvalid : isValidDnsServer (normalizeDnsServer "1.1.1.2") = true := by decide
    unfold handleAddCustomDns
    simp only
    rw [hnorm] at hvalid ⊢
    rw [if_neg (by rw [hvalid]; simp), if_neg hnotmem]
  · intro l e
    have hinvalid : isValidDnsServer (normalizeDnsServer "not-an-ip") = false := by decide
    unfold handleAddCustomDns
    simp only
    rw [if_pos (by rw [hinvalid]; rfl)]

/-- Witness for C8 at a one-element server list. -/
theorem custom_dns_validation_witness :
    ((handleAddCustomDns ⟨["9.9.9.9"], "", "not-an-ip"⟩).customDnsServers = ["9.9.9.9"]
        ∧ (handleAddCustomDns ⟨["9.9.9.9"], "", "not-an-ip"⟩).dnsError = dnsCustomInvalidText
        ∧ (handleAddCustomDns ⟨["9.9.9.9"], "", "not-an-ip"⟩).customDnsInput = "not-an-ip")
      ∧ handleAddCustomDns ⟨["9.9.9.9"], "", "1.1.1.2"⟩ = ⟨["9.9.9.9", "1.1.1.2"], "", ""⟩ := by
  have h := custom_dns_validation ⟨["9.9.9.9"], "", "not-an-ip"⟩
  refine ⟨h.1 (by decide), ?_⟩
  exact (custom_dns_validation ⟨[], "", ""⟩).2.1 ["9.9.9.9"] "" (by decide)

/-- C9: adding an already-present valid custom server is idempotent — the
first add succeeds (no error), and a second add of the same server leaves
the list exactly as after the first, with no error reported. -/
theorem custom_dns_add_idempotent (l : List String) (e0 : String) (s : String)
    (hvalid : isValidDnsServer (normalizeDnsServer s) = true) :
    (handleAddCustomDns ⟨(handleAddCustomDns ⟨l, e0, s⟩).customDnsServers,
          (handleAddCustomDns ⟨l, e0, s⟩).dnsError, s⟩).customDnsServers
        = (handleAddCustomDns ⟨l, e0, s⟩).customDnsServers
      ∧ (handleAddCustomDns ⟨l, e0, s⟩).dnsError = ""
      ∧ (handleAddCustomDns ⟨(handleAddCustomDns ⟨l, e0, s⟩).customDnsServers,
          (handleAddCustomDns ⟨l, e0, s⟩).dnsError, s⟩).dnsError = "" := by
  have hcond : (!(isValidDnsServer (normalizeDnsServer s))) = false := by
    rw [hvalid]
    rfl
  have h1 : handleAddCustomDns ⟨l, e0, s⟩
      = ⟨if normalizeDnsServer s ∈ l then l else l ++ [normalizeDnsServer s], "", ""⟩ := by
    unfold handleAddCustomDns
    simp only
    rw [if_neg (by rw [hcond]; simp)]
  have hmem : normalizeDnsServer s
      ∈ (if normalizeDnsServer s ∈ l then l else l ++ [normalizeDnsServer s]) := by
    by_cases hin : normalizeDnsServer s ∈ l
    · rw [if_pos hin]
      exact hin
    · rw [if_neg hin]
      simp
  refine ⟨?_, by rw [h1], ?_⟩
  · rw [h1]
    dsimp only
    unfold handleAddCustomDns
    dsimp only
    rw [if_neg (by rw [hcond]; simp), if_pos hmem]
  · rw [h1]
    dsimp only
    unfold handleAddCustomDns
    dsimp only
    rw [if_neg (by rw [hcond]; simp)]

/-- Witness for C9: adding `"1.1.1.2"` twice to a registry holding
`"9.9.9.9"`. -/
theorem custom_dns_add_idempotent_witness :
    (handleAddCustomDns ⟨(handleAddCustomDns ⟨["9.9.9.9"], "x", "1.1.1.2"⟩).customDnsServers,
          (handleAddCustomDns ⟨["9.9.9.9"], "x", "1.1.1.2"⟩).dnsError, "1.1.1.2"⟩).customDnsServers
        = (handleAddCustomDns ⟨["9.9.9.9"], "x", "1.1.1.2"⟩).customDnsServers
      ∧ (handleAddCustomDns ⟨["9.9.9.9"], "x", "1.1.1.2"⟩).dnsError = ""
      ∧ (handleAddCustomDns ⟨(handleAddCustomDns ⟨["9.9.9.9"], "x", "1.1.1.2"⟩).customDnsServers,
          (handleAddCustomDns ⟨["9.9.9.9"], "x", "1.1.1.2"⟩).dnsError, "1.1.1.2"⟩).dnsError = "" :=
  custom_dns_add_idempotent ["9.9.9.9"] "x" "1.1.1.2" (by decide)

end PulseNet
